import Mathlib

/-!
Verification development for the full-powershell repository.

The development shallowly embeds the parts of the source that the claims
C1-C10 are about:

* `FPS.extract`, `FPS.drainFuel`, `FPS.bwrite`, `FPS.runChunks` embed the
  `BufferReader` class (`src/index.ts` lines 79-94, `src/process.ts`
  lines 52-67): a growable buffer, `Buffer.indexOf`-based extraction
  between a head and a tail delimiter, and the `while (buffer.includes
  (tail))` loop of `_write`.  Buffers are modelled as `List Char`
  (the delimiters are ASCII and `Buffer` operations used by the source
  are byte-wise slicing and searching).
* `FPS.wrap` embeds the wrapper builder (`wrap` of the wrapper module with
  the `WrapParams` signature), faithfully reproducing its PowerShell
  template string, including the two-halves delimiter construction.
* `FPS.qstep`/`FPS.qrun` embed the queue dispatcher of `PowerShell.call` /
  `PowerShell.initQueue` (`src/index.ts` lines 241-334): FIFO queue,
  one in-flight command, completion / timeout handling, and the
  destroy-then-init restart performed by the error branch.
* `FPS.destroySchedule` / `FPS.destroy` embed `PowerShell.destroy`
  (`src/index.ts` lines 344-361): the
  `from([SIGTERM, SIGINT]).concatMap(delay(3000)).takeUntil(closed$)`
  signal pipeline.
-/

namespace FPS

/-- First index at which `pat` occurs in `s` (as a contiguous sublist),
`none` when there is no occurrence.  `Buffer.indexOf` semantics. -/
def firstOcc (pat : List Char) : List Char → Option Nat
  | [] => if pat.isPrefixOf [] then some 0 else none
  | c :: s => if pat.isPrefixOf (c :: s) then some 0 else (firstOcc pat s).map (· + 1)

/-- `Buffer.includes`: true when `pat` occurs somewhere in `s`. -/
def includesB (pat s : List Char) : Bool := (firstOcc pat s).isSome

/-- `pat` occurs in `s` (propositional form). -/
def occurs (pat s : List Char) : Prop := ∃ j, pat <+: s.drop j

/-- `Buffer.indexOf` returns `-1` when the pattern is absent. -/
def bufIndexOf (pat s : List Char) : Int :=
  match firstOcc pat s with
  | some i => (i : Int)
  | none => -1

/-- `Buffer.slice`, `Buffer.subarray`: negative indices count from the end,
all indices are clamped to the buffer bounds. -/
def jsSlice (l : List Char) (a b : Int) : List Char :=
  let n : Int := (l.length : Int)
  let lo : Int := if a < 0 then max (n + a) 0 else min a n
  let hi : Int := if b < 0 then max (n + b) 0 else min b n
  (l.take hi.toNat).drop lo.toNat

/-- `BufferReader.extract` (src/index.ts lines 79-85, src/process.ts lines
52-58):

    let head_idx = this.buffer.indexOf(this.head);
    let tail_idx = this.buffer.indexOf(this.tail);
    let data = this.buffer.slice(head_idx + this.head.length, tail_idx);
    this.buffer = this.buffer.slice(tail_idx + this.tail.length);
    return data;

Returns `(data, new buffer)`. -/
def extract (head tail buf : List Char) : List Char × List Char :=
  let head_idx : Int := bufIndexOf head buf
  let tail_idx : Int := bufIndexOf tail buf
  let data := jsSlice buf (head_idx + (head.length : Int)) tail_idx
  let buffer := jsSlice buf (tail_idx + (tail.length : Int)) (buf.length : Int)
  (data, buffer)

/-- The `while (this.buffer.includes(this.tail))` loop of
`BufferReader._write`, fuel-indexed.  Returns the emitted payloads in
order together with the final buffer.  The termination development below
shows that `fuel = buf.length` always suffices, so this computes the
limit of the source's unbounded loop. -/
def drainFuel (head tail : List Char) : Nat → List Char → List (List Char) × List Char
  | 0, buf => ([], buf)
  | fuel + 1, buf =>
    if includesB tail buf then
      let p := extract head tail buf
      let q := drainFuel head tail fuel p.2
      (p.1 :: q.1, q.2)
    else ([], buf)

/-- `BufferReader._write` (src/index.ts lines 87-94): append the chunk to
the buffer, then repeatedly extract while the buffer contains the tail
delimiter.  The state is (emitted payload transcript, buffer). -/
def bwrite (head tail : List Char) (st : List (List Char) × List Char)
    (chunk : List Char) : List (List Char) × List Char :=
  let b := st.2 ++ chunk
  let q := drainFuel head tail b.length b
  (st.1 ++ q.1, q.2)

/-- Feeding a sequence of chunks to a freshly constructed `BufferReader`. -/
def runChunks (head tail : List Char) (chunks : List (List Char)) :
    List (List Char) × List Char :=
  chunks.foldl (bwrite head tail) ([], [])

/-- `delimit_head = 'F0ZU7Wm1p4'` (src/index.ts line 119). -/
def delimit_head : List Char := ("F0ZU7Wm1p4" : String).data

/-- `delimit_tail = 'AdBmCXEdsB'` (src/index.ts line 120). -/
def delimit_tail : List Char := ("AdBmCXEdsB" : String).data

/-- One framed envelope `HEAD ++ payload ++ TAIL`. -/
def frame (head tail p : List Char) : List Char := head ++ (p ++ tail)

/-- A whole stream of frames, concatenated. -/
def framesJoin (head tail : List Char) (ps : List (List Char)) : List Char :=
  (ps.map (frame head tail)).flatten

instance occursDecidable (pat s : List Char) : Decidable (occurs pat s) :=
  decidable_of_iff ((firstOcc pat s).isSome = true) (by
    constructor
    · intro h
      match hfo : firstOcc pat s with
      | some j =>
        refine ⟨j, ?_⟩
        clear h
        induction s generalizing j with
        | nil =>
          unfold firstOcc at hfo
          split at hfo
          · cases hfo
            have : pat = [] := List.prefix_nil.mp ( List.isPrefixOf_iff_prefix.mp (by assumption))
            simp [this]
          · cases hfo
        | cons c s ih =>
          unfold firstOcc at hfo
          split at hfo
          · cases hfo
            simpa using List.isPrefixOf_iff_prefix.mp (by assumption)
          · rcases Option.map_eq_some'.mp hfo with ⟨j', hj', rfl⟩
            simpa using ih j' hj'
      | none => simp [hfo] at h
    · rintro ⟨j, hj⟩
      induction s generalizing j with
      | nil =>
        have : pat = [] := List.prefix_nil.mp (by simpa using hj)
        simp [firstOcc, this, List.isPrefixOf_iff_prefix]
      | cons c s ih =>
        unfold firstOcc
        split
        · simp
        · rename_i hnp
          match j with
          | 0 =>
            exact absurd ( List.isPrefixOf_iff_prefix.mpr (by simpa using hj)) (by simpa using hnp)
          | j + 1 =>
            have := ih j (by simpa using hj)
            simpa using this)

/-- The spec's reading of `extract` ("the most recent head delimiter
preceding that tail"): the payload between the last head occurrence lying
fully before the first tail occurrence, and that tail.  Used only to
compare the code's behaviour against the claim's wording. -/
def specExtractMostRecentHead (head tail buf : List Char) : Option (List Char) :=
  match firstOcc tail buf with
  | none => none
  | some t =>
    match ((List.range (t + 1)).filter
        (fun i => head.isPrefixOf (buf.drop i) && decide (i + head.length ≤ t))).getLast? with
    | none => none
    | some h => some ((buf.take t).drop (h + head.length))

/-! ## Wrapper builder (`wrap`, wrapper module with the `WrapParams` signature) -/

/-- `Format = 'string' | 'json' | null` of the wrapper module. -/
inductive Format
  | json
  | string
  | null
deriving DecidableEq

/-- `serialise(variable, format)` of the wrapper module (`variable` is
renamed `v`, a keyword in Lean). -/
def serialise (v : String) : Format → String
  | Format.json => "ConvertTo-Json -InputObject @(" ++ v ++ ") -Compress"
  | Format.string =>
      "ConvertTo-Json -InputObject @(" ++ v
        ++ " | ForEach-Object \x7b Out-String -InputObject $_ \x7d) -Compress"
  | Format.null => "@(" ++ v ++ ")"

/-- A JS boolean interpolated into a template literal (`$${verbose}`). -/
def psBool (b : Bool) : String := if b then "true" else "false"

/-- The `${format ? `"${format}"` : "$null"}` interpolation. -/
def formatLiteral : Format → String
  | Format.json => "\"json\""
  | Format.string => "\"string\""
  | Format.null => "$null"

/-- `os.EOL`, modelled for POSIX hosts; on Windows it is CRLF, which
changes only this constant of the template. -/
def osEOL : String := "\n"

/-- `wrap(params)` of the wrapper module: the PowerShell template string,
transcribed verbatim (template braces are written as `\x7b`/`\x7d`
escapes).  `delimit_head.slice(0, 5)` is `String.mk (….data.take 5)`,
`slice(5)` is `String.mk (….data.drop 5)`. -/
def wrap (command delimit_head delimit_tail out_verbose out_debug : String)
    (format : Format) (verbose debug : Bool) : String :=
  "\n    $OutputEncoding = [Console]::OutputEncoding = [Text.UTF8Encoding]::UTF8;\n\n    $verboseEnabled = $"
    ++ psBool verbose
    ++ "\n    $debugEnabled = $"
    ++ psBool debug
    ++ "\n\n    $vv = if ($verboseEnabled) \x7b \""
    ++ out_verbose
    ++ "\" \x7d else \x7b $null \x7d\n    $dv = if ($debugEnabled) \x7b \""
    ++ out_debug
    ++ "\" \x7d else \x7b $null \x7d\n\n    $delimit_head_A = \""
    ++ String.mk (delimit_head.data.take 5)
    ++ "\"\n    $delimit_head_B = \""
    ++ String.mk (delimit_head.data.drop 5)
    ++ "\"\n    $delimit_tail_A = \""
    ++ String.mk (delimit_tail.data.take 5)
    ++ "\"\n    $delimit_tail_B = \""
    ++ String.mk (delimit_tail.data.drop 5)
    ++ "\"\n    try \x7b\n        Invoke-Command -NoNewScope -ScriptBlock \x7b\n            "
    ++ command
    ++ "\n        \x7d 1>$null 2>$null 3>$null 4>$vv 5>$dv 6>$null -ov ov -ev ev -wv wv -iv iv\n    \x7d \n    catch \x7b\n        $ev = $_\n    \x7d\n    finally \x7b\n\n        $verbose = if ($verboseEnabled) \x7b Get-Content $vv \x7d else \x7b @() \x7d\n        $debug = if ($debugEnabled) \x7b Get-Content $dv \x7d else \x7b @() \x7d\n\n        if ($verboseEnabled) \x7b\n            Remove-Item $vv | Out-Null\n        \x7d\n        if ($debugEnabled) \x7b\n            Remove-Item $dv | Out-Null\n        \x7d\n\n        $rxjs_pwsh = [pscustomobject]@\x7b \n            result = [pscustomobject]@\x7b \n                success = "
    ++ serialise ("$ov") format
    ++ "\n                error = "
    ++ serialise ("$ev") Format.string
    ++ "\n                warning = "
    ++ serialise ("$wv") Format.string
    ++ "\n                verbose = "
    ++ serialise ("$verbose") Format.string
    ++ "\n                debug = "
    ++ serialise ("$debug") Format.string
    ++ "\n                info = "
    ++ serialise ("$iv") Format.string
    ++ "\n                format = "
    ++ formatLiteral format
    ++ "\n            \x7d\n        \x7d\n        $rxjs_pwsh_json = $rxjs_pwsh | ConvertTo-Json -Depth 2\n        \"$delimit_head_A$delimit_head_B\" + $rxjs_pwsh_json + \"$delimit_tail_A$delimit_tail_B\"\n    \x7d\n    "
    ++ osEOL
    ++ "\n    "

/-! ## Queue and dispatcher (`PowerShell.call` / `PowerShell.initQueue`) -/

/-- A queued command: `{ command, wrapped, subject, pid }`; the opaque
command text and subject are abstracted to a numeric id, the `pid` field
records `this.powershell.pid` at enqueue time exactly as `call` does. -/
structure Cmd where
  id : Nat
  pid : Nat
deriving DecidableEq

/-- Observable dispatcher state.  `queue`, `inflight` and `pid` model the
mutable fields; `submitted`, `writes`, `completed` and `errored` are the
event transcripts the claims quantify over: ids in submission order,
`(id, child pid)` pairs in stdin-write order, ids in the order the
per-command subjects complete, and `(id, error message)` pairs in the
order subjects are errored. -/
structure QState where
  queue : List Cmd
  inflight : Option Cmd
  pid : Nat
  submitted : List Nat
  writes : List (Nat × Nat)
  completed : List Nat
  errored : List (Nat × String)
deriving DecidableEq

/-- The timeout error message built in `initQueue`'s `catchError` branch:
`new Error(\x60Command timed out after ${this.timeout} milliseconds. …\x60)`. -/
def timeoutMsg (ms : Nat) : String :=
  "Command timed out after " ++ toString ms
    ++ " milliseconds. Check the full-powershell docs for more information."

/-- One firing of the dispatcher's `tick$`/`handler`: when no command is
in flight, `this.queue.shift()` dequeues the head and `invoke` writes its
wrapped source to the current child's stdin (`switchMap(invoke)`);
otherwise the `concatMap` chain is still busy and the tick is a no-op. -/
def tick (s : QState) : QState :=
  match s.inflight, s.queue with
  | none, c :: rest =>
      { s with queue := rest, inflight := some c,
               writes := s.writes ++ [(c.id, s.pid)] }
  | _, _ => s

/-- External events driving the dispatcher: a `call` (push to queue, then
tick), the arrival of the next envelope on `out$` (consumed by the
in-flight command's `take(1)` and completing its subject, then tick), and
the per-command timeout firing with no envelope received (error the
in-flight subject, destroy the child and re-init a fresh one -- modelled
as `pid + 1` -- then the new `initQueue` ticks). -/
inductive QEv
  | submit (id : Nat)
  | envelope
  | timeoutFire
deriving DecidableEq

/-- One dispatcher step for each event, following `call` (lines 302-334)
and `initQueue` (lines 241-300) of src/index.ts. -/
def qstep (ms : Nat) (s : QState) : QEv → QState
  | QEv.submit id =>
      tick { s with queue := s.queue ++ [{ id := id, pid := s.pid }],
                    submitted := s.submitted ++ [id] }
  | QEv.envelope =>
      match s.inflight with
      | some c => tick { s with inflight := none, completed := s.completed ++ [c.id] }
      | none => s
  | QEv.timeoutFire =>
      match s.inflight with
      | some c =>
          tick { s with inflight := none,
                        errored := s.errored ++ [(c.id, timeoutMsg ms)],
                        pid := s.pid + 1 }
      | none => s

/-- Fresh `PowerShell` instance: empty queue, nothing in flight, first
child generation. -/
def initQState : QState :=
  { queue := [], inflight := none, pid := 1,
    submitted := [], writes := [], completed := [], errored := [] }

/-- Run the dispatcher over a sequence of events. -/
def qrun (ms : Nat) (evs : List QEv) : QState :=
  evs.foldl (qstep ms) initQState

/-- The id of the in-flight command, as a zero/one element list. -/
def inflightIds (s : QState) : List Nat :=
  (s.inflight.map Cmd.id).toList

/-! ## Lifecycle: `PowerShell.destroy` (src/index.ts lines 344-361) -/

/-- POSIX signals used by `destroy`; `SIGKILL` only appears in the spec's
claim, never in the code. -/
inductive Signal
  | SIGTERM
  | SIGINT
  | SIGKILL
deriving DecidableEq

/-- The literal array `['SIGTERM', 'SIGINT']` in `destroy`. -/
def killSignals : List Signal := [Signal.SIGTERM, Signal.SIGINT]

/-- `delay(3000)` applied to each signal's inner observable. -/
def killDelayMs : Nat := 3000

/-- `from(killSignals).pipe(concatMap(item => of(item).pipe(delay(3000))))`
started at time `start`: each signal is emitted `killDelayMs` after the
previous inner observable completes, so the n-th signal fires at
`start + n * 3000`. -/
def scheduleFrom (start : Nat) : List (Nat × Signal) :=
  (killSignals.foldl
    (fun acc sig => (acc.1 ++ [(acc.2 + killDelayMs, sig)], acc.2 + killDelayMs))
    ([], start)).1

/-- The signal schedule of a single `destroy()` call made at time 0. -/
def destroySchedule : List (Nat × Signal) := scheduleFrom 0

/-- `takeUntil(this.closed$)`: only signals scheduled strictly before the
child's close event are actually sent. -/
def sentBeforeClose (closedAt : Nat) : List (Nat × Signal) :=
  destroySchedule.filter (fun e => decide (e.1 < closedAt))

/-- The lifecycle state `destroy` interacts with: the identity of the
current `closed$` subject (replaced only by `init`, never by `destroy`)
and the start times of the signal pipelines launched so far.  `destroy`
has no `closing` latch in the source: every call launches a fresh
pipeline and returns the same `closed$`. -/
structure DestroyState where
  closedId : Nat
  pipelines : List Nat
deriving DecidableEq

/-- `PowerShell.destroy`: subscribe a new signal pipeline, return
`this.closed$` (identified by `closedId`). -/
def destroy (s : DestroyState) (now : Nat) : DestroyState × Nat :=
  ({ s with pipelines := s.pipelines ++ [now] }, s.closedId)

/-- All signals actually delivered to the child across every pipeline,
given the time the close event fires. -/
def allSentSignals (s : DestroyState) (closedAt : Nat) : List (Nat × Signal) :=
  (s.pipelines.map
    (fun t0 => (scheduleFrom t0).filter (fun e => decide (e.1 < closedAt)))).flatten

/-! ## Lemmas about `firstOcc`, `includesB` and `occurs` -/

theorem firstOcc_some_matches {pat s : List Char} {j : Nat}
    (h : firstOcc pat s = some j) : pat <+: s.drop j := by
  induction s generalizing j with
  | nil =>
    unfold firstOcc at h
    split at h
    · cases h
      have : pat = [] := List.prefix_nil.mp ( List.isPrefixOf_iff_prefix.mp (by assumption))
      simp [this]
    · cases h
  | cons c s ih =>
    unfold firstOcc at h
    split at h
    · cases h
      simpa using List.isPrefixOf_iff_prefix.mp (by assumption)
    · rcases Option.map_eq_some'.mp h with ⟨j', hj', rfl⟩
      simpa using ih hj'

theorem firstOcc_min {pat s : List Char} {j : Nat}
    (h : firstOcc pat s = some j) : ∀ i < j, ¬ pat <+: s.drop i := by
  induction s generalizing j with
  | nil =>
    unfold firstOcc at h
    split at h
    · cases h
      omega
    · cases h
  | cons c s ih =>
    unfold firstOcc at h
    split at h
    · cases h
      omega
    · rcases Option.map_eq_some'.mp h with ⟨j', hj', rfl⟩
      rename_i hnp
      intro i hi
      match i with
      | 0 =>
        intro hp
        exact hnp ( List.isPrefixOf_iff_prefix.mpr (by simpa using hp))
      | i + 1 =>
        have := ih hj' i (by omega)
        simpa using this

theorem firstOcc_none {pat s : List Char}
    (h : firstOcc pat s = none) : ∀ i, ¬ pat <+: s.drop i := by
  induction s with
  | nil =>
    unfold firstOcc at h
    split at h
    · cases h
    · rename_i hnp
      intro i hp
      have : pat = [] := List.prefix_nil.mp (by simpa using hp)
      exact hnp ( List.isPrefixOf_iff_prefix.mpr (by simp [this]))
  | cons c s ih =>
    unfold firstOcc at h
    split at h
    · cases h
    · rename_i hnp
      have hn : firstOcc pat s = none := by
        cases hfo : firstOcc pat s <;> simp [hfo] at h ⊢
      intro i
      match i with
      | 0 =>
        intro hp
        exact hnp ( List.isPrefixOf_iff_prefix.mpr (by simpa using hp))
      | i + 1 =>
        simpa using ih hn i

theorem firstOcc_some_le {pat s : List Char} {j : Nat}
    (h : firstOcc pat s = some j) : j ≤ s.length := by
  induction s generalizing j with
  | nil =>
    unfold firstOcc at h
    split at h
    · cases h; simp
    · cases h
  | cons c s ih =>
    unfold firstOcc at h
    split at h
    · cases h; simp
    · rcases Option.map_eq_some'.mp h with ⟨j', hj', rfl⟩
      have := ih hj'
      simp
      omega

theorem firstOcc_eq_some {pat s : List Char} {j : Nat}
    (hocc : pat <+: s.drop j) (hmin : ∀ i < j, ¬ pat <+: s.drop i) :
    firstOcc pat s = some j := by
  cases h : firstOcc pat s with
  | none => exact absurd hocc (firstOcc_none h j)
  | some t =>
    rcases Nat.lt_trichotomy t j with hlt | rfl | hgt
    · exact absurd (firstOcc_some_matches h) (hmin t hlt)
    · rfl
    · exact absurd hocc (firstOcc_min h j hgt)

theorem includesB_iff {pat s : List Char} :
    includesB pat s = true ↔ occurs pat s := by
  constructor
  · intro h
    match hfo : firstOcc pat s with
    | some j => exact ⟨j, firstOcc_some_matches hfo⟩
    | none => simp [includesB, hfo] at h
  · rintro ⟨j, hj⟩
    cases hfo : firstOcc pat s with
    | none => exact absurd hj (firstOcc_none hfo j)
    | some t => simp [includesB, hfo]

theorem includesB_false_iff {pat s : List Char} :
    includesB pat s = false ↔ ¬ occurs pat s := by
  rw [← includesB_iff]
  cases h : includesB pat s <;> simp

/-! ## Append decomposition of occurrences -/

theorem prefix_short {pat a b : List Char}
    (h : pat <+: a ++ b) (hl : pat.length ≤ a.length) : pat <+: a := by
  have := List.prefix_iff_eq_take.mp h
  rw [List.take_append_eq_append_take] at this
  rw [List.prefix_iff_eq_take]
  have h2 : pat.length - a.length = 0 := by omega
  simpa [h2] using this

theorem prefix_swap {pat a b : List Char}
    (h : pat <+: a ++ b) (hl : a.length ≤ pat.length) : a <+: pat := by
  have := List.prefix_iff_eq_take.mp h
  rw [List.take_append_eq_append_take, List.take_of_length_le hl] at this
  exact ⟨b.take (pat.length - a.length), this.symm⟩

theorem occ_restrict {pat x y : List Char} {j : Nat}
    (h : pat <+: (x ++ y).drop j) (hle : j + pat.length ≤ x.length) :
    pat <+: x.drop j := by
  rw [List.drop_append_eq_append_drop] at h
  have hj : j - x.length = 0 := by omega
  rw [hj, List.drop_zero] at h
  exact prefix_short h (by simp <;> omega)

theorem occ_extend {pat x y : List Char} {j : Nat}
    (h : pat <+: x.drop j) (hle : j ≤ x.length) : pat <+: (x ++ y).drop j := by
  rw [List.drop_append_eq_append_drop]
  have hj : j - x.length = 0 := by omega
  rw [hj, List.drop_zero]
  exact h.trans (List.prefix_append _ _)

theorem occurs_append_cases {pat x y : List Char}
    (h : occurs pat (x ++ y)) :
    occurs pat x ∨ occurs pat y ∨
      ∃ k, 0 < k ∧ k < pat.length ∧ pat.take k <:+ x ∧ pat.drop k <+: y := by
  rcases h with ⟨j, hj⟩
  by_cases hx : j + pat.length ≤ x.length
  · exact Or.inl ⟨j, occ_restrict hj hx⟩
  by_cases hxy : x.length ≤ j
  · refine Or.inr (Or.inl ⟨j - x.length, ?_⟩)
    rw [List.drop_append_eq_append_drop, List.drop_eq_nil_of_le hxy] at hj
    simpa using hj
  · push_neg at hx hxy
    have hlen : (x.drop j).length = x.length - j := by simp
    have hpat : pat = x.drop j ++ y.take (pat.length - (x.drop j).length) := by
      have := List.prefix_iff_eq_take.mp hj
      rw [List.drop_append_eq_append_drop] at this
      have hj0 : j - x.length = 0 := by omega
      rw [hj0, List.drop_zero, List.take_append_eq_append_take] at this
      rwa [List.take_of_length_le (by omega)] at this
    refine Or.inr (Or.inr ⟨x.length - j, by omega, by omega, ?_, ?_⟩)
    · have heq : pat.take (x.length - j) = x.drop j := by
        rw [hpat, List.take_append_eq_append_take]
        have h0 : x.length - j - (x.drop j).length = 0 := by omega
        rw [h0, List.take_zero, List.append_nil, List.take_of_length_le (by omega)]
      rw [heq]
      exact ⟨x.take j, by simp⟩
    · rw [hpat, List.drop_append_eq_append_drop]
      have h0 : x.length - j - (x.drop j).length = 0 := by omega
      rw [h0, List.drop_zero, List.drop_eq_nil_of_le (by omega), List.nil_append]
      exact List.take_prefix _ _

theorem not_occurs_append {pat x y : List Char}
    (hx : ¬ occurs pat x) (hy : ¬ occurs pat y)
    (hk : ∀ k, 0 < k → k < pat.length → ¬ (pat.take k <:+ x ∧ pat.drop k <+: y)) :
    ¬ occurs pat (x ++ y) := by
  intro h
  rcases occurs_append_cases h with h1 | h2 | ⟨k, hk0, hkl, hs, hp⟩
  · exact hx h1
  · exact hy h2
  · exact hk k hk0 hkl ⟨hs, hp⟩

/-! ## Computing `extract` from the first-occurrence indices -/

theorem jsSlice_nat (l : List Char) (a b : Nat) (hb : b ≤ l.length) :
    jsSlice l (a : Int) (b : Int) = (l.take b).drop a := by
  simp only [jsSlice]
  rw [if_neg (by omega), if_neg (by omega)]
  have hminb : min (b : Int) ((l.length : Nat) : Int) = (b : Int) := by omega
  rw [hminb]
  by_cases ha : a ≤ l.length
  · rw [show min (a : Int) ((l.length : Nat) : Int) = (a : Int) by omega]
    simp
  · push_neg at ha
    rw [show min (a : Int) ((l.length : Nat) : Int) = ((l.length : Nat) : Int) by omega]
    simp only [Int.toNat_natCast]
    rw [List.drop_eq_nil_of_le (by simp <;> omega), List.drop_eq_nil_of_le (by simp <;> omega)]

theorem extract_eq {head tail buf : List Char} {h t : Nat}
    (hh : firstOcc head buf = some h) (ht : firstOcc tail buf = some t) :
    extract head tail buf =
      ((buf.take t).drop (h + head.length), buf.drop (t + tail.length)) := by
  have htb : t + tail.length ≤ buf.length := by
    have h1 := (firstOcc_some_matches ht).length_le
    have h2 := firstOcc_some_le ht
    simp at h1
    omega
  simp only [extract, bufIndexOf, hh, ht]
  have e1 : (h : Int) + (head.length : Int) = ((h + head.length : Nat) : Int) := by push_cast; ring
  have e2 : (t : Int) + (tail.length : Int) = ((t + tail.length : Nat) : Int) := by push_cast; ring
  rw [e1, e2, jsSlice_nat buf _ t (by omega), jsSlice_nat buf _ buf.length (le_refl _),
    List.take_length]

theorem extract_eq_noHead {head tail buf : List Char} {t : Nat}
    (hh : firstOcc head buf = none) (ht : firstOcc tail buf = some t)
    (hhead : 1 ≤ head.length) :
    extract head tail buf =
      ((buf.take t).drop (head.length - 1), buf.drop (t + tail.length)) := by
  have htb : t + tail.length ≤ buf.length := by
    have h1 := (firstOcc_some_matches ht).length_le
    have h2 := firstOcc_some_le ht
    simp at h1
    omega
  simp only [extract, bufIndexOf, hh, ht]
  have e1 : (-1 : Int) + (head.length : Int) = ((head.length - 1 : Nat) : Int) := by
    have : (1:Nat) ≤ head.length := hhead
    push_cast [this]
    ring
  have e2 : (t : Int) + (tail.length : Int) = ((t + tail.length : Nat) : Int) := by push_cast; ring
  rw [e1, e2, jsSlice_nat buf _ t (by omega), jsSlice_nat buf _ buf.length (le_refl _),
    List.take_length]

theorem firstOcc_of_startsWith {pat s : List Char} (h : pat <+: s) :
    firstOcc pat s = some 0 :=
  firstOcc_eq_some (by simpa using h) (by omega)

/-! ## No tail occurrence strictly inside a well-formed frame -/

theorem no_early_tail {p : List Char} (hp : ¬ occurs delimit_tail p) :
    ∀ j, j < delimit_head.length + p.length →
      ¬ delimit_tail <+: (delimit_head ++ (p ++ delimit_tail)).drop j := by
  have hH : delimit_head.length = 10 := by decide
  have hT : delimit_tail.length = 10 := by decide
  intro j hj hocc
  have hlb : j + 10 ≤ (delimit_head ++ (p ++ delimit_tail)).length := by
    have h1 := hocc.length_le
    simp [hT] at h1 ⊢
    omega
  by_cases h1 : j + 10 ≤ 10
  · have hj0 : j = 0 := by omega
    subst hj0
    have hpre : delimit_tail <+: delimit_head ++ (p ++ delimit_tail) := by simpa using hocc
    have hTH : delimit_tail = delimit_head :=
      (prefix_short hpre (by omega)).eq_of_length (by omega)
    exact absurd hTH (by decide)
  · by_cases h2 : j < 10
    · have hstep : delimit_tail <+: delimit_head.drop j ++ (p ++ delimit_tail) := by
        rw [List.drop_append_eq_append_drop] at hocc
        have : j - delimit_head.length = 0 := by omega
        rwa [this, List.drop_zero] at hocc
      have hsw : delimit_head.drop j <+: delimit_tail :=
        prefix_swap hstep (by simp [hH, hT] <;> omega)
      have hfact : ∀ i, i < 10 → 0 < i → ¬ (delimit_head.drop i <+: delimit_tail) := by decide
      exact hfact j (by omega) (by omega) hsw
    · push_neg at h2
      have hstep : delimit_tail <+: p.drop (j - 10) ++ delimit_tail := by
        rw [List.drop_append_eq_append_drop, List.drop_eq_nil_of_le (by omega),
          List.nil_append, List.drop_append_eq_append_drop] at hocc
        have : j - delimit_head.length - p.length = 0 := by simp [hH]; omega
        rwa [this, List.drop_zero, hH] at hocc
      by_cases h3 : j + 10 ≤ 10 + p.length
      · have : delimit_tail <+: p.drop (j - 10) :=
          prefix_short hstep (by simp [hT] <;> omega)
        exact hp ⟨j - 10, this⟩
      · push_neg at h3
        have hw : (p.drop (j - 10)).length = 10 + p.length - j := by simp; omega
        have hTdec : delimit_tail =
            p.drop (j - 10) ++ delimit_tail.take (10 - (10 + p.length - j)) := by
          have hd := List.prefix_iff_eq_take.mp hstep
          rw [List.take_append_eq_append_take,
            List.take_of_length_le (by omega), hT, hw] at hd
          exact hd
        have hdropo : delimit_tail.drop (10 + p.length - j) =
            delimit_tail.take (10 - (10 + p.length - j)) := by
          conv_lhs => rw [hTdec]
          rw [List.drop_append_eq_append_drop, List.drop_eq_nil_of_le (by omega),
            List.nil_append]
          have : 10 + p.length - j - (p.drop (j - 10)).length = 0 := by omega
          rw [this, List.drop_zero]
        have hper : delimit_tail.drop (10 + p.length - j) <+: delimit_tail := by
          rw [hdropo]; exact List.take_prefix _ _
        have hfact : ∀ i, i < 10 → 0 < i → ¬ (delimit_tail.drop i <+: delimit_tail) := by decide
        exact hfact (10 + p.length - j) (by omega) (by omega) hper

/-- No tail occurrence in any proper-length prefix of a frame (with
arbitrary continuation): anything shorter than `HEAD ++ p ++ TAIL` is
tail-free when `p` is. -/
theorem prefix_of_frame_tailFree {p rest q : List Char}
    (hp : ¬ occurs delimit_tail p)
    (hq : q <+: delimit_head ++ (p ++ (delimit_tail ++ rest)))
    (hlen : q.length < delimit_head.length + p.length + delimit_tail.length) :
    ¬ occurs delimit_tail q := by
  have hT : delimit_tail.length = 10 := by decide
  rintro ⟨j, hj⟩
  have hjq : j + 10 ≤ q.length := by
    have := hj.length_le
    simp [hT] at this
    omega
  have htrans : delimit_tail <+: (delimit_head ++ (p ++ (delimit_tail ++ rest))).drop j := by
    have hqe := List.prefix_iff_eq_take.mp hq
    have hstep : q.drop j =
        ((delimit_head ++ (p ++ (delimit_tail ++ rest))).drop j).take (q.length - j) := by
      conv_lhs => rw [hqe]
      rw [List.drop_take]
    rw [hstep] at hj
    exact hj.trans ( List.take_prefix _ _)
  have hrestr : delimit_tail <+: (delimit_head ++ (p ++ delimit_tail)).drop j := by
    have hassoc : delimit_head ++ (p ++ (delimit_tail ++ rest)) =
        (delimit_head ++ (p ++ delimit_tail)) ++ rest := by simp
    rw [hassoc] at htrans
    exact occ_restrict htrans (by simp [hT] <;> omega)
  exact no_early_tail hp j (by omega) hrestr

theorem firstOcc_tail_frame {p rest : List Char} (hp : ¬ occurs delimit_tail p) :
    firstOcc delimit_tail (delimit_head ++ (p ++ (delimit_tail ++ rest))) =
      some (delimit_head.length + p.length) := by
  have hT : delimit_tail.length = 10 := by decide
  apply firstOcc_eq_some
  · have hassoc : delimit_head ++ (p ++ (delimit_tail ++ rest)) =
        (delimit_head ++ p) ++ (delimit_tail ++ rest) := by simp
    rw [hassoc]
    have hlen : delimit_head.length + p.length = (delimit_head ++ p).length := by simp
    rw [hlen, List.drop_left]
    exact List.prefix_append _ _
  · intro i hi hocc
    have hrestr : delimit_tail <+: (delimit_head ++ (p ++ delimit_tail)).drop i := by
      have hassoc : delimit_head ++ (p ++ (delimit_tail ++ rest)) =
          (delimit_head ++ (p ++ delimit_tail)) ++ rest := by simp
      rw [hassoc] at hocc
      exact occ_restrict hocc (by simp [hT] <;> omega)
    exact no_early_tail hp i hi hrestr

/-- `extract` on a buffer that starts with a complete well-formed frame
peels exactly that frame: it emits the payload and keeps the rest. -/
theorem extract_frame {p rest : List Char} (hp : ¬ occurs delimit_tail p) :
    extract delimit_head delimit_tail
      (delimit_head ++ (p ++ (delimit_tail ++ rest))) = (p, rest) := by
  have hH : delimit_head.length = 10 := by decide
  have hT : delimit_tail.length = 10 := by decide
  have hh : firstOcc delimit_head (delimit_head ++ (p ++ (delimit_tail ++ rest))) = some 0 :=
    firstOcc_of_startsWith (List.prefix_append _ _)
  rw [extract_eq hh (firstOcc_tail_frame hp)]
  have h1 : ((delimit_head ++ (p ++ (delimit_tail ++ rest))).take
      (delimit_head.length + p.length)).drop (0 + delimit_head.length) = p := by
    have hassoc : delimit_head ++ (p ++ (delimit_tail ++ rest)) =
        (delimit_head ++ p) ++ (delimit_tail ++ rest) := by simp
    rw [hassoc, Nat.zero_add]
    have hlen : delimit_head.length + p.length = (delimit_head ++ p).length := by simp
    rw [hlen, List.take_left, List.drop_left]
  have h2 : (delimit_head ++ (p ++ (delimit_tail ++ rest))).drop
      (delimit_head.length + p.length + delimit_tail.length) = rest := by
    have hassoc : delimit_head ++ (p ++ (delimit_tail ++ rest)) =
        ((delimit_head ++ p) ++ delimit_tail) ++ rest := by simp
    rw [hassoc]
    have hlen : delimit_head.length + p.length + delimit_tail.length =
        ((delimit_head ++ p) ++ delimit_tail).length := by simp <;> omega
    rw [hlen, List.drop_left]
  rw [h1, h2]

/-! ## The `_write` drain loop -/

theorem drain_not_incl {head tail : List Char} {buf : List Char} (fuel : Nat)
    (h : includesB tail buf = false) : drainFuel head tail fuel buf = ([], buf) := by
  cases fuel with
  | zero => rfl
  | succ fuel => simp [drainFuel, h]

theorem includes_length {tail buf : List Char}
    (h : includesB tail buf = true) : tail.length ≤ buf.length := by
  rcases includesB_iff.mp h with ⟨j, hj⟩
  have := hj.length_le
  simp at this
  omega

theorem extract_shrinks {buf : List Char}
    (h : includesB delimit_tail buf = true) :
    (extract delimit_head delimit_tail buf).2.length < buf.length := by
  have hT : delimit_tail.length = 10 := by decide
  rcases ho : firstOcc delimit_tail buf with _ | t
  · simp [includesB, ho] at h
  · have hlen : t + delimit_tail.length ≤ buf.length := by
      have h1 := (firstOcc_some_matches ho).length_le
      have h2 := firstOcc_some_le ho
      simp at h1
      omega
    cases hh : firstOcc delimit_head buf with
    | some hd =>
      rw [extract_eq hh ho]
      show (buf.drop (t + delimit_tail.length)).length < buf.length
      rw [List.length_drop]
      omega
    | none =>
      rw [extract_eq_noHead hh ho (by decide)]
      show (buf.drop (t + delimit_tail.length)).length < buf.length
      rw [List.length_drop]
      omega

/-- Fuel irrelevance: any fuel at least the buffer length computes the
same result, i.e. the while loop terminates within `buf.length`
iterations. -/
theorem drain_fuel_congr : ∀ (b : Nat) (buf : List Char) (f g : Nat),
    buf.length ≤ b → buf.length ≤ f → buf.length ≤ g →
    drainFuel delimit_head delimit_tail f buf = drainFuel delimit_head delimit_tail g buf := by
  intro b
  induction b with
  | zero =>
    intro buf f g hb _ _
    have : buf = [] := List.length_eq_zero.mp (by omega)
    subst this
    have hincl : includesB delimit_tail ([] : List Char) = false := by decide
    rw [drain_not_incl f hincl, drain_not_incl g hincl]
  | succ b ih =>
    intro buf f g hb hf hg
    cases hincl : includesB delimit_tail buf with
    | false => rw [drain_not_incl f hincl, drain_not_incl g hincl]
    | true =>
      have hlen : 10 ≤ buf.length := by
        have := includes_length hincl
        have hT : delimit_tail.length = 10 := by decide
        omega
      cases f with
      | zero => omega
      | succ f =>
        cases g with
        | zero => omega
        | succ g =>
          simp only [drainFuel, hincl, if_true]
          have hsh := extract_shrinks hincl
          have := ih (extract delimit_head delimit_tail buf).2 f g (by omega) (by omega) (by omega)
          rw [this]

/-- The canonical drain: fuel = buffer length. -/
theorem drain_stable {buf : List Char} {fuel : Nat} (hf : buf.length ≤ fuel) :
    drainFuel delimit_head delimit_tail fuel buf =
      drainFuel delimit_head delimit_tail buf.length buf :=
  drain_fuel_congr buf.length buf fuel buf.length le_rfl hf le_rfl

/-! ## Frames -/

theorem framesJoin_nil (head tail : List Char) : framesJoin head tail [] = [] := rfl

theorem framesJoin_cons (head tail p : List Char) (ps : List (List Char)) :
    framesJoin head tail (p :: ps) = head ++ (p ++ (tail ++ framesJoin head tail ps)) := by
  simp [framesJoin, frame]

theorem framesJoin_append (head tail : List Char) (ps qs : List (List Char)) :
    framesJoin head tail (ps ++ qs) = framesJoin head tail ps ++ framesJoin head tail qs := by
  simp [framesJoin]

theorem includes_frames_cons {p : List Char} {ps : List (List Char)} :
    includesB delimit_tail (framesJoin delimit_head delimit_tail (p :: ps)) = true := by
  rw [framesJoin_cons]
  apply includesB_iff.mpr
  refine ⟨delimit_head.length + p.length, ?_⟩
  have hassoc : delimit_head ++ (p ++ (delimit_tail ++ framesJoin delimit_head delimit_tail ps)) =
      (delimit_head ++ p) ++ (delimit_tail ++ framesJoin delimit_head delimit_tail ps) := by simp
  rw [hassoc]
  have hlen : delimit_head.length + p.length = (delimit_head ++ p).length := by simp
  rw [hlen, List.drop_left]
  exact List.prefix_append _ _

/-- Draining any prefix of a well-formed frame stream emits exactly the
payloads of the frames that are completely contained in the prefix, in
order, and leaves the tail-free remainder in the buffer. -/
theorem drain_framePre : ∀ (n : Nat) (ps : List (List Char)) (q : List Char) (fuel : Nat),
    q.length ≤ n → q.length ≤ fuel →
    (∀ p ∈ ps, ¬ occurs delimit_tail p) →
    q <+: framesJoin delimit_head delimit_tail ps →
    ∃ ps₁ ps₂ r, ps = ps₁ ++ ps₂ ∧
      q = framesJoin delimit_head delimit_tail ps₁ ++ r ∧
      drainFuel delimit_head delimit_tail fuel q = (ps₁, r) ∧
      includesB delimit_tail r = false ∧
      r <+: framesJoin delimit_head delimit_tail ps₂ := by
  intro n
  induction n with
  | zero =>
    intro ps q fuel hn hf hclean hq
    have : q = [] := List.length_eq_zero.mp (by omega)
    subst this
    exact ⟨[], ps, [], by simp, by simp [framesJoin_nil], by rw [drain_not_incl fuel (by decide)],
      by decide, by simp⟩
  | succ n ih =>
    intro ps q fuel hn hf hclean hq
    have hH : delimit_head.length = 10 := by decide
    have hT : delimit_tail.length = 10 := by decide
    cases hincl : includesB delimit_tail q with
    | false =>
      exact ⟨[], ps, q, by simp, by simp [framesJoin_nil], drain_not_incl fuel hincl, hincl,
        by simpa using hq⟩
    | true =>
      match ps with
      | [] =>
        rw [framesJoin_nil] at hq
        have : q = [] := List.prefix_nil.mp hq
        subst this
        simp [includesB, firstOcc] at hincl
        exact absurd hincl (by decide)
      | p :: ps' =>
        have hpclean : ¬ occurs delimit_tail p := hclean p (List.mem_cons_self _ _)
        rw [framesJoin_cons] at hq
        -- q must contain the whole first frame
        have hqlong : delimit_head.length + p.length + delimit_tail.length ≤ q.length := by
          by_contra hshort
          push_neg at hshort
          exact absurd (includesB_iff.mp hincl)
            (prefix_of_frame_tailFree hpclean hq hshort)
        -- split off the first frame: q = HEAD ++ p ++ TAIL ++ q'
        have hS : delimit_head ++ (p ++ (delimit_tail ++ framesJoin delimit_head delimit_tail ps')) =
            (delimit_head ++ (p ++ delimit_tail)) ++ framesJoin delimit_head delimit_tail ps' := by
          simp
        rw [hS] at hq
        have hFq : (delimit_head ++ (p ++ delimit_tail)) <+: q :=
          prefix_swap hq (by simp <;> omega)
        obtain ⟨q', hq'⟩ := hFq
        have hq'pre : q' <+: framesJoin delimit_head delimit_tail ps' := by
          rw [← hq'] at hq
          exact (List.prefix_append_right_inj _).mp hq
        have hq'len : q'.length + (delimit_head.length + p.length + delimit_tail.length) = q.length := by
          have := congrArg List.length hq'
          simp at this
          omega
        cases fuel with
        | zero => omega
        | succ fuel' =>
          have hqshape : q = delimit_head ++ (p ++ (delimit_tail ++ q')) := by
            rw [← hq']
            simp
          have hext : extract delimit_head delimit_tail q = (p, q') := by
            rw [hqshape]
            exact extract_frame hpclean
          obtain ⟨a, b, r, hab, hq'eq, hdrain', hrfree, hrpre⟩ :=
            ih ps' q' fuel' (by omega) (by omega)
              (fun x hx => hclean x (List.mem_cons_of_mem _ hx)) hq'pre
          refine ⟨p :: a, b, r, by simp [hab], ?_, ?_, hrfree, hrpre⟩
          · rw [framesJoin_cons, hqshape, hq'eq]
            simp
          · have hstep : drainFuel delimit_head delimit_tail (fuel' + 1) q =
                ((extract delimit_head delimit_tail q).1 ::
                    (drainFuel delimit_head delimit_tail fuel'
                      (extract delimit_head delimit_tail q).2).1,
                  (drainFuel delimit_head delimit_tail fuel'
                    (extract delimit_head delimit_tail q).2).2) := by
              simp [drainFuel, hincl]
            rw [hstep, hext]
            simp only [hdrain']

/-- Folding `_write` over the chunks of a well-formed frame stream:
whatever is already in the transcript/buffer, the frames whose bytes are
completely delivered get emitted, in order. -/
theorem runChunks_aux : ∀ (chunks : List (List Char)) (acc : List (List Char))
    (r : List Char) (ps₂ : List (List Char)),
    (∀ p ∈ ps₂, ¬ occurs delimit_tail p) →
    includesB delimit_tail r = false →
    r ++ chunks.flatten = framesJoin delimit_head delimit_tail ps₂ →
    chunks.foldl (bwrite delimit_head delimit_tail) (acc, r) = (acc ++ ps₂, []) := by
  intro chunks
  induction chunks with
  | nil =>
    intro acc r ps₂ hclean hrfree heq
    simp at heq
    match ps₂ with
    | [] =>
      simp [framesJoin_nil] at heq
      simp [heq]
    | p :: ps' =>
      rw [heq] at hrfree
      rw [includes_frames_cons] at hrfree
      cases hrfree
  | cons c cs ih =>
    intro acc r ps₂ hclean hrfree heq
    have hbpre : r ++ c <+: framesJoin delimit_head delimit_tail ps₂ :=
      ⟨cs.flatten, by rw [← heq]; simp⟩
    obtain ⟨a, b₂, r', hsplit, hbeq, hdrain, hr'free, hr'pre⟩ :=
      drain_framePre (r ++ c).length ps₂ (r ++ c) (r ++ c).length le_rfl le_rfl hclean hbpre
    have hstep : bwrite delimit_head delimit_tail (acc, r) c = (acc ++ a, r') := by
      simp only [bwrite, hdrain]
    have hnexteq : r' ++ cs.flatten = framesJoin delimit_head delimit_tail b₂ := by
      have h1 : framesJoin delimit_head delimit_tail a ++ (r' ++ cs.flatten) =
          framesJoin delimit_head delimit_tail a ++ framesJoin delimit_head delimit_tail b₂ := by
        calc framesJoin delimit_head delimit_tail a ++ (r' ++ cs.flatten)
            = (framesJoin delimit_head delimit_tail a ++ r') ++ cs.flatten := by simp
          _ = (r ++ c) ++ cs.flatten := by rw [← hbeq]
          _ = r ++ (c :: cs).flatten := by simp
          _ = framesJoin delimit_head delimit_tail ps₂ := heq
          _ = framesJoin delimit_head delimit_tail a ++
                framesJoin delimit_head delimit_tail b₂ := by
              rw [hsplit, framesJoin_append]
      exact List.append_cancel_left h1
    have hres := ih (acc ++ a) r' b₂
      (fun p hp => hclean p (by rw [hsplit]; exact List.mem_append_right _ hp))
      hr'free hnexteq
    calc (c :: cs).foldl (bwrite delimit_head delimit_tail) (acc, r)
        = cs.foldl (bwrite delimit_head delimit_tail) (acc ++ a, r') := by
          rw [List.foldl_cons, hstep]
      _ = (acc ++ ps₂, []) := by rw [hres, hsplit]; simp

/-! ## Substring helpers for the timeout message and the wrapper template -/

theorem occurs_mid (x p y : List Char) : occurs p (x ++ (p ++ y)) := by
  refine ⟨x.length, ?_⟩
  rw [List.drop_left]
  exact List.prefix_append _ _

/-- Step of the no-occurrence chain whose straddle case dies on the left
(concrete) piece: no nonempty proper prefix of the pattern is a suffix of
`X`. -/
theorem stepConcrete {pat : List Char} (X R : List Char)
    (hX : ¬ occurs pat X)
    (hL : ∀ k, k < pat.length → 0 < k → ¬ (pat.take k <:+ X))
    (hR : ¬ occurs pat R) : ¬ occurs pat (X ++ R) :=
  not_occurs_append hX hR (fun k hk0 hkl hand => hL k hkl hk0 hand.1)

/-- Step of the no-occurrence chain whose straddle case dies on the right
neighbour `P` (a concrete glue piece of length at least
`pat.length - 1`): no nonempty proper suffix of the pattern is a prefix of
`P`. -/
theorem stepAbstract {pat : List Char} (A P R : List Char)
    (hA : ¬ occurs pat A)
    (hP9 : pat.length ≤ P.length + 1)
    (hR : ∀ k, k < pat.length → 0 < k → ¬ (pat.drop k <+: P))
    (hrest : ¬ occurs pat (P ++ R)) : ¬ occurs pat (A ++ (P ++ R)) := by
  apply not_occurs_append hA hrest
  rintro k hk0 hkl ⟨_, hp⟩
  have hshort : pat.drop k <+: P := prefix_short hp (by simp; omega)
  exact hR k hkl hk0 hshort

/-! ## Dispatcher invariant -/

/-- The dispatcher invariant on timeout-free runs: the submission
transcript splits into completed ids, the in-flight id and the queued ids
in that order, and the stdin-write transcript is exactly the completed
commands followed by the in-flight one. -/
def QInv (s : QState) : Prop :=
  s.submitted = s.completed ++ inflightIds s ++ s.queue.map Cmd.id ∧
  s.writes.map Prod.fst = s.completed ++ inflightIds s

theorem tick_inv {s : QState} (h : QInv s) : QInv (tick s) := by
  obtain ⟨h1, h2⟩ := h
  unfold tick
  rcases hs : s.inflight with _ | c
  · rcases hq : s.queue with _ | ⟨c', rest⟩
    · exact ⟨h1, h2⟩
    · refine ⟨?_, ?_⟩
      · simp only [QState.mk.injEq] at *
        simp [inflightIds, hs, hq] at h1 ⊢
        simpa using h1
      · simp [inflightIds, hs, hq] at h2 ⊢
        simp [h2]
  · exact ⟨h1, h2⟩

theorem qstep_inv {ms : Nat} {s : QState} {e : QEv}
    (he : e ≠ QEv.timeoutFire) (h : QInv s) : QInv (qstep ms s e) := by
  obtain ⟨h1, h2⟩ := h
  match e with
  | QEv.submit id =>
    apply tick_inv
    constructor
    · simp [inflightIds, h1]
    · simp [inflightIds, h2]
  | QEv.envelope =>
    rcases hs : s.inflight with _ | c
    · exact ⟨by simpa [qstep, hs] using h1, by simpa [qstep, hs] using h2⟩
    · simp only [qstep, hs]
      apply tick_inv
      constructor
      · simp [inflightIds, hs] at h1 ⊢
        simpa using h1
      · simp [inflightIds, hs] at h2 ⊢
        simpa using h2
  | QEv.timeoutFire => exact absurd rfl he

theorem qfold_inv {ms : Nat} : ∀ (evs : List QEv) (s : QState),
    (∀ e ∈ evs, e ≠ QEv.timeoutFire) → QInv s → QInv (evs.foldl (qstep ms) s) := by
  intro evs
  induction evs with
  | nil => intro s _ h; exact h
  | cons e evs ih =>
    intro s hne h
    rw [List.foldl_cons]
    exact ih _ (fun x hx => hne x (List.mem_cons_of_mem _ hx))
      (qstep_inv (hne e (List.mem_cons_self _ _)) h)

theorem qrun_inv {ms : Nat} {evs : List QEv}
    (he : QEv.timeoutFire ∉ evs) : QInv (qrun ms evs) :=
  qfold_inv evs initQState (fun e hmem heq => he (heq ▸ hmem)) ⟨rfl, rfl⟩

theorem tick_errored (s : QState) : (tick s).errored = s.errored := by
  unfold tick
  split <;> rfl

theorem tick_pid (s : QState) : (tick s).pid = s.pid := by
  unfold tick
  split <;> rfl

theorem tick_completed (s : QState) : (tick s).completed = s.completed := by
  unfold tick
  split <;> rfl

theorem data_mk (l : List Char) : (String.mk l).data = l := rfl

theorem occAt_decompose {pat s : List Char} {j : Nat} (h : pat <+: s.drop j) :
    s = s.take j ++ (pat ++ s.drop (j + pat.length)) := by
  obtain ⟨rest, hrest⟩ := h
  have h2 : rest = s.drop (j + pat.length) := by
    have h3 := congrArg (List.drop pat.length) hrest
    rw [List.drop_left] at h3
    rw [h3, List.drop_drop, Nat.add_comm]
  calc s = s.take j ++ s.drop j := (List.take_append_drop j s).symm
    _ = s.take j ++ (pat ++ s.drop (j + pat.length)) := by rw [← hrest, h2]

/-! ## Claims -/

/-- C1: For every sequence of `call` invocations on one `PowerShell`
instance with no interleaved `destroy` (modelled as event sequences with
no timeout firing and, a fortiori, no destroy), the order in which the
per-command result subjects complete is a prefix of (hence equal to, once
all envelopes have arrived) the order in which the commands were
submitted; the dispatcher writes at most one command to the child between
two envelope receipts (the write transcript is exactly the completed
commands followed by the one in flight), and dequeues strictly FIFO (the
submission order is completed ++ in-flight ++ queued). -/
theorem c1_fifo_completion_order (ms : Nat) (evs : List QEv)
    (hnt : QEv.timeoutFire ∉ evs) :
    (qrun ms evs).completed <+: (qrun ms evs).submitted ∧
    (qrun ms evs).writes.map Prod.fst =
      (qrun ms evs).completed ++ inflightIds (qrun ms evs) ∧
    (qrun ms evs).submitted =
      (qrun ms evs).completed ++ inflightIds (qrun ms evs) ++
        (qrun ms evs).queue.map Cmd.id := by
  obtain ⟨h1, h2⟩ := @qrun_inv ms evs hnt
  refine ⟨?_, h2, h1⟩
  rw [h1, List.append_assoc]
  exact List.prefix_append _ _

/-- Witness for C1 at a concrete run: two calls, two envelopes. -/
theorem c1_witness :
    (qrun 600000 [QEv.submit 1, QEv.submit 2, QEv.envelope, QEv.envelope]).completed <+:
      (qrun 600000 [QEv.submit 1, QEv.submit 2, QEv.envelope, QEv.envelope]).submitted ∧
    (qrun 600000 [QEv.submit 1, QEv.submit 2, QEv.envelope, QEv.envelope]).writes.map Prod.fst =
      (qrun 600000 [QEv.submit 1, QEv.submit 2, QEv.envelope, QEv.envelope]).completed ++
        inflightIds (qrun 600000 [QEv.submit 1, QEv.submit 2, QEv.envelope, QEv.envelope]) ∧
    (qrun 600000 [QEv.submit 1, QEv.submit 2, QEv.envelope, QEv.envelope]).submitted =
      (qrun 600000 [QEv.submit 1, QEv.submit 2, QEv.envelope, QEv.envelope]).completed ++
        inflightIds (qrun 600000 [QEv.submit 1, QEv.submit 2, QEv.envelope, QEv.envelope]) ++
        (qrun 600000 [QEv.submit 1, QEv.submit 2, QEv.envelope, QEv.envelope]).queue.map Cmd.id :=
  c1_fifo_completion_order 600000 _ (by decide)

/-- C2 counterexample: submit two commands, let the first time out.  The
second command was enqueued under child pid 1, yet after the restart it is
written to the replacement child (pid 2) and completes normally; its
subject is never errored.  This refutes the claim that a command still
queued at restart is errored rather than re-run on the new generation. -/
theorem c2_counterexample :
    (qrun 2000 [QEv.submit 1, QEv.submit 2, QEv.timeoutFire, QEv.envelope]).writes =
      [(1, 1), (2, 2)] ∧
    (qrun 2000 [QEv.submit 1, QEv.submit 2, QEv.timeoutFire, QEv.envelope]).completed = [2] ∧
    (∀ e ∈ (qrun 2000 [QEv.submit 1, QEv.submit 2, QEv.timeoutFire, QEv.envelope]).errored,
      e.1 ≠ 2) ∧
    (qrun 2000 [QEv.submit 1, QEv.submit 2, QEv.timeoutFire, QEv.envelope]).submitted = [1, 2] := by
  decide

/-- C2 (amended): when the in-flight command times out, only that
command's subject is errored; a command still queued at the restart is
NOT errored -- it stays queued, and the re-armed dispatcher immediately
writes it to the replacement child (new pid), to be executed there.  The
pid recorded at enqueue time is never compared. -/
theorem c2_requeue_on_new_child (ms : Nat) (s : QState) (c q0 : Cmd) (qr : List Cmd)
    (hinf : s.inflight = some c) (hq : s.queue = q0 :: qr) :
    (qstep ms s QEv.timeoutFire).errored = s.errored ++ [(c.id, timeoutMsg ms)] ∧
    (qstep ms s QEv.timeoutFire).pid = s.pid + 1 ∧
    (qstep ms s QEv.timeoutFire).writes = s.writes ++ [(q0.id, s.pid + 1)] ∧
    (qstep ms s QEv.timeoutFire).inflight = some q0 ∧
    (qstep ms s QEv.timeoutFire).queue = qr ∧
    (qstep ms s QEv.timeoutFire).completed = s.completed := by
  simp only [qstep, hinf]
  unfold tick
  simp [hq]

/-- Witness for C2's amended statement at a concrete state. -/
theorem c2_witness :
    (qstep 2000 (⟨[⟨2, 1⟩], some ⟨1, 1⟩, 1, [1, 2], [(1, 1)], [], []⟩ : QState) QEv.timeoutFire).errored =
      [(1, timeoutMsg 2000)] ∧
    (qstep 2000 (⟨[⟨2, 1⟩], some ⟨1, 1⟩, 1, [1, 2], [(1, 1)], [], []⟩ : QState) QEv.timeoutFire).writes =
      [(1, 1), (2, 2)] := by
  have h := c2_requeue_on_new_child 2000
    (⟨[⟨2, 1⟩], some ⟨1, 1⟩, 1, [1, 2], [(1, 1)], [], []⟩ : QState) ⟨1, 1⟩ ⟨2, 1⟩ [] rfl rfl
  exact ⟨h.1, h.2.2.1⟩

/-- C3 counterexample: a buffer holding two head delimiters before the
tail.  The spec's "most recent head preceding the tail" reading would
extract `y`, but the code takes the FIRST head occurrence and extracts
`xF0ZU7Wm1p4y`. -/
theorem c3_counterexample :
    (extract delimit_head delimit_tail
        (("F0ZU7Wm1p4xF0ZU7Wm1p4yAdBmCXEdsB" : String).data)).1 =
      ("xF0ZU7Wm1p4y" : String).data ∧
    specExtractMostRecentHead delimit_head delimit_tail
        (("F0ZU7Wm1p4xF0ZU7Wm1p4yAdBmCXEdsB" : String).data) =
      some (("y" : String).data) ∧
    (extract delimit_head delimit_tail
        (("F0ZU7Wm1p4xF0ZU7Wm1p4yAdBmCXEdsB" : String).data)).1 ≠
      ("y" : String).data := by
  decide

/-- C3 (amended): for every buffer state whose FIRST head-delimiter
occurrence (at index `h`) ends at or before the first tail-delimiter
occurrence (at index `t`), `extract` returns the bytes strictly between
that first head occurrence and that first tail occurrence, and drops
everything up to and including the tail; the buffer decomposes
accordingly.  (The source takes `indexOf`, i.e. the FIRST head
occurrence, not the most recent one preceding the tail.) -/
theorem c3_extract_first_head (buf : List Char) (h t : Nat)
    (hh : firstOcc delimit_head buf = some h)
    (ht : firstOcc delimit_tail buf = some t)
    (hht : h + delimit_head.length ≤ t) :
    extract delimit_head delimit_tail buf =
      ((buf.take t).drop (h + delimit_head.length), buf.drop (t + delimit_tail.length)) ∧
    buf = buf.take h ++ delimit_head ++ (buf.take t).drop (h + delimit_head.length)
      ++ delimit_tail ++ buf.drop (t + delimit_tail.length) := by
  have hpt := firstOcc_some_matches ht
  have hph := firstOcc_some_matches hh
  have htlen : t + delimit_tail.length ≤ buf.length := by
    have h1 := hpt.length_le
    have h2 := firstOcc_some_le ht
    simp at h1
    omega
  refine ⟨extract_eq hh ht, ?_⟩
  have hdt : buf = buf.take t ++ (delimit_tail ++ buf.drop (t + delimit_tail.length)) :=
    occAt_decompose hpt
  have hdh : buf = buf.take h ++ (delimit_head ++ buf.drop (h + delimit_head.length)) :=
    occAt_decompose hph
  have hmid : buf.drop (h + delimit_head.length) =
      (buf.take t).drop (h + delimit_head.length) ++
        (delimit_tail ++ buf.drop (t + delimit_tail.length)) := by
    conv_lhs => rw [hdt]
    rw [List.drop_append_eq_append_drop]
    have h0 : h + delimit_head.length - (buf.take t).length = 0 := by
      simp
      omega
    rw [h0, List.drop_zero]
  conv_lhs => rw [hdh, hmid]
  simp

/-- Witness for C3's amended statement at a concrete buffer. -/
theorem c3_witness :
    (extract delimit_head delimit_tail (("F0ZU7Wm1p4xyAdBmCXEdsBzz" : String).data)).1 =
      ("xy" : String).data := by
  have h := c3_extract_first_head (("F0ZU7Wm1p4xyAdBmCXEdsBzz" : String).data) 0 12
    (by decide) (by decide) (by decide)
  rw [h.1]
  decide

/-- C4 counterexample: a tail with no head in the buffer.  The code's
payload starts at byte index `-1 + head.length = 9`, so the first nine
bytes `012345678` are silently discarded and the payload is `9X` -- not
the whole pre-tail prefix `0123456789X` that "extraction starts at the
start of the buffer" would give. -/
theorem c4_counterexample :
    firstOcc delimit_head (("0123456789XAdBmCXEdsB" : String).data) = none ∧
    (extract delimit_head delimit_tail (("0123456789XAdBmCXEdsB" : String).data)).1 =
      ("9X" : String).data ∧
    (extract delimit_head delimit_tail (("0123456789XAdBmCXEdsB" : String).data)).1 ≠
      (("0123456789XAdBmCXEdsB" : String).data).take 11 := by
  decide

/-- C4 (amended): when the buffer contains the tail delimiter but no head
delimiter, the head index is `-1` and extraction starts at byte index
`-1 + head.length = head.length - 1 = 9` -- NOT at the start of the
buffer: the first nine bytes are discarded together with the rest of the
pre-tail portion, and nothing up to and including the tail remains in the
buffer afterwards (the buffer decomposes as pre-tail ++ tail ++ rest and
only rest is kept). -/
theorem c4_extract_headless (buf : List Char) (t : Nat)
    (hh : firstOcc delimit_head buf = none)
    (ht : firstOcc delimit_tail buf = some t) :
    extract delimit_head delimit_tail buf =
      ((buf.take t).drop (delimit_head.length - 1), buf.drop (t + delimit_tail.length)) ∧
    delimit_head.length - 1 = 9 ∧
    buf = buf.take t ++ (delimit_tail ++ buf.drop (t + delimit_tail.length)) :=
  ⟨extract_eq_noHead hh ht (by decide), by decide,
    occAt_decompose (firstOcc_some_matches ht)⟩

/-- Witness for C4's amended statement at a concrete buffer. -/
theorem c4_witness :
    (extract delimit_head delimit_tail (("0123456789XAdBmCXEdsBrest" : String).data)).1 =
      ("9X" : String).data := by
  have h := c4_extract_headless (("0123456789XAdBmCXEdsBrest" : String).data) 11
    (by decide) (by decide)
  rw [h.1]
  decide

/-- C5: for every finite sequence of well-formed frames
`HEAD ++ payload ++ TAIL` whose payloads contain neither delimiter, and
every way of splitting the concatenated byte stream into chunks
(including splits inside a delimiter), feeding the chunks to the framed
reader in order makes it emit exactly the payloads, in order, each
exactly once, with an empty buffer left; no emitted payload straddles two
frames. -/
theorem c5_stream_reassembly (ps chunks : List (List Char))
    (hclean : ∀ p ∈ ps, includesB delimit_head p = false ∧ includesB delimit_tail p = false)
    (hstream : chunks.flatten = framesJoin delimit_head delimit_tail ps) :
    runChunks delimit_head delimit_tail chunks = (ps, []) := by
  have h := runChunks_aux chunks [] [] ps
    (fun p hp => includesB_false_iff.mp (hclean p hp).2)
    (by decide)
    (by simpa using hstream)
  simpa using h

/-- Witness for C5: one frame delivered in three chunks, both delimiters
split across chunk boundaries. -/
theorem c5_witness :
    runChunks delimit_head delimit_tail
      [("F0ZU7Wm" : String).data, ("1p4abAdBm" : String).data, ("CXEdsB" : String).data] =
      ([("ab" : String).data], []) :=
  c5_stream_reassembly [("ab" : String).data]
    [("F0ZU7Wm" : String).data, ("1p4abAdBm" : String).data, ("CXEdsB" : String).data]
    (by decide) (by decide)

/-- C7: when the in-flight command's timeout fires with no envelope
received, its subject is errored with the timeout error whose message
contains the configured timeout value (in milliseconds), and the child is
replaced by a fresh generation (destroy-then-init, modelled as the pid
increment). -/
theorem c7_timeout_error_restart (ms : Nat) (s : QState) (c : Cmd)
    (hinf : s.inflight = some c) :
    (qstep ms s QEv.timeoutFire).errored = s.errored ++ [(c.id, timeoutMsg ms)] ∧
    occurs (toString ms).data (timeoutMsg ms).data ∧
    (qstep ms s QEv.timeoutFire).pid = s.pid + 1 := by
  refine ⟨?_, ?_, ?_⟩
  · simp only [qstep, hinf, tick_errored]
  · have hmsg : (timeoutMsg ms).data =
        ("Command timed out after " : String).data ++
          ((toString ms).data ++
            (" milliseconds. Check the full-powershell docs for more information." : String).data) := by
      simp [timeoutMsg, String.data_append, List.append_assoc]
    rw [hmsg]
    exact occurs_mid _ _ _
  · simp only [qstep, hinf, tick_pid]

/-- Witness for C7 at a concrete state with a 2000 ms timeout. -/
theorem c7_witness :
    (qstep 2000 (⟨[], some ⟨1, 1⟩, 1, [1], [(1, 1)], [], []⟩ : QState) QEv.timeoutFire).errored =
      [(1, timeoutMsg 2000)] ∧
    occurs (toString 2000).data (timeoutMsg 2000).data := by
  have h := c7_timeout_error_restart 2000
    (⟨[], some ⟨1, 1⟩, 1, [1], [(1, 1)], [], []⟩ : QState) ⟨1, 1⟩ rfl
  exact ⟨by simpa using h.1, h.2.1⟩

/-- C8 counterexample: `destroy`'s signal pipeline sends nothing
immediately (the first SIGTERM fires only after 3000 ms), sends SIGINT
3000 ms later (not on a 10-second schedule), and never sends SIGKILL. -/
theorem c8_counterexample :
    destroySchedule = [(3000, Signal.SIGTERM), (6000, Signal.SIGINT)] ∧
    (0, Signal.SIGTERM) ∉ destroySchedule ∧
    (∀ e ∈ destroySchedule, e.2 ≠ Signal.SIGKILL) := by
  decide

/-- C8 (amended): on destroy the supervisor schedules SIGTERM at 3
seconds and SIGINT at 6 seconds (the `['SIGTERM','SIGINT']` array with a
3000 ms `delay` under `concatMap`); no signal is sent immediately and
SIGKILL is never scheduled; each signal is suppressed when the child's
close event fires first (`takeUntil(closed$)`). -/
theorem c8_kill_escalation (closedAt : Nat) :
    destroySchedule = [(3000, Signal.SIGTERM), (6000, Signal.SIGINT)] ∧
    (closedAt ≤ 3000 → sentBeforeClose closedAt = []) ∧
    (3000 < closedAt → closedAt ≤ 6000 →
      sentBeforeClose closedAt = [(3000, Signal.SIGTERM)]) ∧
    (6000 < closedAt →
      sentBeforeClose closedAt = [(3000, Signal.SIGTERM), (6000, Signal.SIGINT)]) := by
  have hd : destroySchedule = [(3000, Signal.SIGTERM), (6000, Signal.SIGINT)] := by decide
  refine ⟨hd, ?_, ?_, ?_⟩
  · intro h1
    have h3 : ¬ (3000 < closedAt) := by omega
    have h6 : ¬ (6000 < closedAt) := by omega
    simp [sentBeforeClose, hd, h3, h6]
  · intro h1 h2
    have h3 : 3000 < closedAt := h1
    have h6 : ¬ (6000 < closedAt) := by omega
    simp [sentBeforeClose, hd, h3, h6]
  · intro h1
    have h3 : 3000 < closedAt := by omega
    simp [sentBeforeClose, hd, h3, h1]

/-- Witness for C8's amended statement: a child closing at 4000 ms
suppresses the SIGINT but not the SIGTERM. -/
theorem c8_witness : sentBeforeClose 4000 = [(3000, Signal.SIGTERM)] :=
  (c8_kill_escalation 4000).2.2.1 (by omega) (by omega)

/-- C9 counterexample: calling `destroy` twice (both before the close
event, which here fires at 10000 ms) returns the same `closed$` subject
but is NOT a no-op: the second call launches a second signal pipeline, so
four kill signals are delivered instead of two. -/
theorem c9_counterexample :
    (destroy (destroy ⟨0, []⟩ 0).1 0).2 = (destroy ⟨0, []⟩ 0).2 ∧
    allSentSignals (destroy (destroy ⟨0, []⟩ 0).1 0).1 10000 =
      [(3000, Signal.SIGTERM), (6000, Signal.SIGINT),
        (3000, Signal.SIGTERM), (6000, Signal.SIGINT)] ∧
    allSentSignals (destroy (destroy ⟨0, []⟩ 0).1 0).1 10000 ≠
      allSentSignals (destroy ⟨0, []⟩ 0).1 10000 := by
  decide

/-- C9 (amended): every `destroy` call returns the same `closed$` subject
of the current generation (there is no `closing` latch), but repeated
calls are not no-ops: each call appends its own SIGTERM/SIGINT pipeline,
whose signals are delivered in addition to the first pipeline's until the
close event fires. -/
theorem c9_destroy_repeat (s : DestroyState) (t₁ t₂ closedAt : Nat) :
    (destroy (destroy s t₁).1 t₂).2 = (destroy s t₁).2 ∧
    (destroy s t₁).2 = s.closedId ∧
    (destroy (destroy s t₁).1 t₂).1.pipelines = s.pipelines ++ [t₁, t₂] ∧
    allSentSignals (destroy (destroy s t₁).1 t₂).1 closedAt =
      allSentSignals (destroy s t₁).1 closedAt ++
        (scheduleFrom t₂).filter (fun e => decide (e.1 < closedAt)) := by
  refine ⟨rfl, rfl, by simp [destroy], ?_⟩
  simp [allSentSignals, destroy]

/-- C10: the framed reader's per-chunk processing always terminates: each
extraction strictly shrinks the buffer (it removes at least the bytes up
to and including the tail occurrence), so the extract-while-tail loop
stabilises within `buf.length` iterations -- any fuel of at least the
buffer length computes the same result. -/
theorem c10_drain_terminates :
    (∀ buf : List Char, includesB delimit_tail buf = true →
      (extract delimit_head delimit_tail buf).2.length < buf.length) ∧
    (∀ (fuel : Nat) (buf : List Char), buf.length ≤ fuel →
      drainFuel delimit_head delimit_tail fuel buf =
        drainFuel delimit_head delimit_tail buf.length buf) :=
  ⟨fun _ h => extract_shrinks h, fun _ _ hf => drain_stable hf⟩

/-- Witness for C10 at a concrete buffer holding one frame. -/
theorem c10_witness :
    (extract delimit_head delimit_tail (("F0ZU7Wm1p4abAdBmCXEdsB" : String).data)).2.length <
      (("F0ZU7Wm1p4abAdBmCXEdsB" : String).data).length ∧
    drainFuel delimit_head delimit_tail 100 (("F0ZU7Wm1p4abAdBmCXEdsB" : String).data) =
      drainFuel delimit_head delimit_tail
        (("F0ZU7Wm1p4abAdBmCXEdsB" : String).data).length
        (("F0ZU7Wm1p4abAdBmCXEdsB" : String).data) :=
  ⟨c10_drain_terminates.1 _ (by decide), c10_drain_terminates.2 100 _ (by decide)⟩


set_option maxRecDepth 40000 in
/-- C6 counterexample: the claim quantifies over every 10-character head
and tail delimiter, but a delimiter can collide with the wrapper's own
fixed code text.  With head delimiter Invoke-Com (10 characters) and an
empty user fragment (which contains neither delimiter), the generated
script contains the full head delimiter as a contiguous substring (inside
the literal Invoke-Command), despite the two-halves construction. -/
theorem c6_counterexample :
    (("Invoke-Com" : String).data).length = 10 ∧
    ¬ occurs (("Invoke-Com" : String).data) (("" : String).data) ∧
    occurs (("Invoke-Com" : String).data)
      (wrap ("") ("Invoke-Com") ("AdBmCXEdsB") ("v.tmp") ("d.tmp")
        Format.json false false).data := by
  refine ⟨by decide, by decide, ?_⟩
  decide

set_option maxRecDepth 100000 in
set_option maxHeartbeats 4000000 in
/-- C6 (amended): for the library delimiters F0ZU7Wm1p4 and AdBmCXEdsB and
every user fragment and temp-file path containing neither delimiter, the
wrapper output contains neither full delimiter as a contiguous substring:
each delimiter appears only as two 5-character halves assigned to distinct
variables and reassembled at emit time.  (The original claim's
quantification over arbitrary 10-character delimiters is refuted
separately, at the delimiter Invoke-Com.) -/
theorem c6_wrapper_delimiter_free
    (command out_verbose out_debug : String) (format : Format) (verbose debug : Bool)
    (hc1 : ¬ occurs delimit_head command.data) (hc2 : ¬ occurs delimit_tail command.data)
    (hv1 : ¬ occurs delimit_head out_verbose.data) (hv2 : ¬ occurs delimit_tail out_verbose.data)
    (hd1 : ¬ occurs delimit_head out_debug.data) (hd2 : ¬ occurs delimit_tail out_debug.data) :
    ¬ occurs delimit_head (wrap command ("F0ZU7Wm1p4") ("AdBmCXEdsB") out_verbose out_debug format verbose debug).data ∧
    ¬ occurs delimit_tail (wrap command ("F0ZU7Wm1p4") ("AdBmCXEdsB") out_verbose out_debug format verbose debug).data := by
  have hshape : (wrap command ("F0ZU7Wm1p4") ("AdBmCXEdsB") out_verbose out_debug format verbose debug).data =
      ("\n    $OutputEncoding = [Console]::OutputEncoding = [Text.UTF8Encoding]::UTF8;\n\n    $verboseEnabled = $" : String).data ++
      ((psBool verbose).data ++
      (("\n    $debugEnabled = $" : String).data ++
      ((psBool debug).data ++
      (("\n\n    $vv = if ($verboseEnabled) \x7b \"" : String).data ++
      (out_verbose.data ++
      (("\" \x7d else \x7b $null \x7d\n    $dv = if ($debugEnabled) \x7b \"" : String).data ++
      (out_debug.data ++
      (("\" \x7d else \x7b $null \x7d\n\n    $delimit_head_A = \"" : String).data ++
      ((("F0ZU7Wm1p4" : String).data.take 5) ++
      (("\"\n    $delimit_head_B = \"" : String).data ++
      ((("F0ZU7Wm1p4" : String).data.drop 5) ++
      (("\"\n    $delimit_tail_A = \"" : String).data ++
      ((("AdBmCXEdsB" : String).data.take 5) ++
      (("\"\n    $delimit_tail_B = \"" : String).data ++
      ((("AdBmCXEdsB" : String).data.drop 5) ++
      (("\"\n    try \x7b\n        Invoke-Command -NoNewScope -ScriptBlock \x7b\n            " : String).data ++
      (command.data ++
      (("\n        \x7d 1>$null 2>$null 3>$null 4>$vv 5>$dv 6>$null -ov ov -ev ev -wv wv -iv iv\n    \x7d \n    catch \x7b\n        $ev = $_\n    \x7d\n    finally \x7b\n\n        $verbose = if ($verboseEnabled) \x7b Get-Content $vv \x7d else \x7b @() \x7d\n        $debug = if ($debugEnabled) \x7b Get-Content $dv \x7d else \x7b @() \x7d\n\n        if ($verboseEnabled) \x7b\n            Remove-Item $vv | Out-Null\n        \x7d\n        if ($debugEnabled) \x7b\n            Remove-Item $dv | Out-Null\n        \x7d\n\n        $rxjs_pwsh = [pscustomobject]@\x7b \n            result = [pscustomobject]@\x7b \n                success = " : String).data ++
      ((serialise ("$ov") format).data ++
      (("\n                error = " : String).data ++
      ((serialise ("$ev") Format.string).data ++
      (("\n                warning = " : String).data ++
      ((serialise ("$wv") Format.string).data ++
      (("\n                verbose = " : String).data ++
      ((serialise ("$verbose") Format.string).data ++
      (("\n                debug = " : String).data ++
      ((serialise ("$debug") Format.string).data ++
      (("\n                info = " : String).data ++
      ((serialise ("$iv") Format.string).data ++
      (("\n                format = " : String).data ++
      ((formatLiteral format).data ++
      (("\n            \x7d\n        \x7d\n        $rxjs_pwsh_json = $rxjs_pwsh | ConvertTo-Json -Depth 2\n        \"$delimit_head_A$delimit_head_B\" + $rxjs_pwsh_json + \"$delimit_tail_A$delimit_tail_B\"\n    \x7d\n    " : String).data ++
      (osEOL.data ++
      (("\n    " : String).data)))))))))))))))))))))))))))))))))) := by
    simp [wrap, String.data_append, data_mk, List.append_assoc]
  rw [hshape]
  constructor
  ·
    refine stepConcrete _ _ (by decide) (by decide) ?_
    refine stepAbstract _ _ _ (by cases verbose <;> decide) (by decide) (by decide) ?_
    refine stepConcrete _ _ (by decide) (by decide) ?_
    refine stepAbstract _ _ _ (by cases debug <;> decide) (by decide) (by decide) ?_
    refine stepConcrete _ _ (by decide) (by decide) ?_
    refine stepAbstract _ _ _ hv1 (by decide) (by decide) ?_
    refine stepConcrete _ _ (by decide) (by decide) ?_
    refine stepAbstract _ _ _ hd1 (by decide) (by decide) ?_
    refine stepConcrete _ _ (by decide) (by decide) ?_
    refine stepAbstract _ _ _ (by decide) (by decide) (by decide) ?_
    refine stepConcrete _ _ (by decide) (by decide) ?_
    refine stepAbstract _ _ _ (by decide) (by decide) (by decide) ?_
    refine stepConcrete _ _ (by decide) (by decide) ?_
    refine stepAbstract _ _ _ (by decide) (by decide) (by decide) ?_
    refine stepConcrete _ _ (by decide) (by decide) ?_
    refine stepAbstract _ _ _ (by decide) (by decide) (by decide) ?_
    refine stepConcrete _ _ (by decide) (by decide) ?_
    refine stepAbstract _ _ _ hc1 (by decide) (by decide) ?_
    refine stepConcrete _ _ (by decide) (by decide) ?_
    refine stepAbstract _ _ _ (by cases format <;> decide) (by decide) (by decide) ?_
    refine stepConcrete _ _ (by decide) (by decide) ?_
    refine stepAbstract _ _ _ (by decide) (by decide) (by decide) ?_
    refine stepConcrete _ _ (by decide) (by decide) ?_
    refine stepAbstract _ _ _ (by decide) (by decide) (by decide) ?_
    refine stepConcrete _ _ (by decide) (by decide) ?_
    refine stepAbstract _ _ _ (by decide) (by decide) (by decide) ?_
    refine stepConcrete _ _ (by decide) (by decide) ?_
    refine stepAbstract _ _ _ (by decide) (by decide) (by decide) ?_
    refine stepConcrete _ _ (by decide) (by decide) ?_
    refine stepAbstract _ _ _ (by decide) (by decide) (by decide) ?_
    refine stepConcrete _ _ (by decide) (by decide) ?_
    refine stepAbstract _ _ _ (by cases format <;> decide) (by decide) (by decide) ?_
    decide
  ·
    refine stepConcrete _ _ (by decide) (by decide) ?_
    refine stepAbstract _ _ _ (by cases verbose <;> decide) (by decide) (by decide) ?_
    refine stepConcrete _ _ (by decide) (by decide) ?_
    refine stepAbstract _ _ _ (by cases debug <;> decide) (by decide) (by decide) ?_
    refine stepConcrete _ _ (by decide) (by decide) ?_
    refine stepAbstract _ _ _ hv2 (by decide) (by decide) ?_
    refine stepConcrete _ _ (by decide) (by decide) ?_
    refine stepAbstract _ _ _ hd2 (by decide) (by decide) ?_
    refine stepConcrete _ _ (by decide) (by decide) ?_
    refine stepAbstract _ _ _ (by decide) (by decide) (by decide) ?_
    refine stepConcrete _ _ (by decide) (by decide) ?_
    refine stepAbstract _ _ _ (by decide) (by decide) (by decide) ?_
    refine stepConcrete _ _ (by decide) (by decide) ?_
    refine stepAbstract _ _ _ (by decide) (by decide) (by decide) ?_
    refine stepConcrete _ _ (by decide) (by decide) ?_
    refine stepAbstract _ _ _ (by decide) (by decide) (by decide) ?_
    refine stepConcrete _ _ (by decide) (by decide) ?_
    refine stepAbstract _ _ _ hc2 (by decide) (by decide) ?_
    refine stepConcrete _ _ (by decide) (by decide) ?_
    refine stepAbstract _ _ _ (by cases format <;> decide) (by decide) (by decide) ?_
    refine stepConcrete _ _ (by decide) (by decide) ?_
    refine stepAbstract _ _ _ (by decide) (by decide) (by decide) ?_
    refine stepConcrete _ _ (by decide) (by decide) ?_
    refine stepAbstract _ _ _ (by decide) (by decide) (by decide) ?_
    refine stepConcrete _ _ (by decide) (by decide) ?_
    refine stepAbstract _ _ _ (by decide) (by decide) (by decide) ?_
    refine stepConcrete _ _ (by decide) (by decide) ?_
    refine stepAbstract _ _ _ (by decide) (by decide) (by decide) ?_
    refine stepConcrete _ _ (by decide) (by decide) ?_
    refine stepAbstract _ _ _ (by decide) (by decide) (by decide) ?_
    refine stepConcrete _ _ (by decide) (by decide) ?_
    refine stepAbstract _ _ _ (by cases format <;> decide) (by decide) (by decide) ?_
    decide

/-- Witness for C6's amended statement at a concrete call. -/
theorem c6_witness :
    ¬ occurs delimit_head
      (wrap ("Get-Date;") ("F0ZU7Wm1p4") ("AdBmCXEdsB") ("a_fps_verbose.tmp")
        ("a_fps_debug.tmp") Format.json true true).data ∧
    ¬ occurs delimit_tail
      (wrap ("Get-Date;") ("F0ZU7Wm1p4") ("AdBmCXEdsB") ("a_fps_verbose.tmp")
        ("a_fps_debug.tmp") Format.json true true).data :=
  c6_wrapper_delimiter_free ("Get-Date;") ("a_fps_verbose.tmp") ("a_fps_debug.tmp")
    Format.json true true
    (by decide) (by decide) (by decide) (by decide) (by decide) (by decide)

end FPS
